import Mathlib

/-!
Shallow embedding of the real-time recognition pipeline of the
sl-interpreter repository (src/src/recognition/confidence_filter.py,
src/src/recognition/gesture_smoother.py, src/src/vision/temporal_buffer.py,
src/src/vision/camera.py, src/src/recognition/classifier.py, src/src/server.py).

Modelling conventions: Python floats are embedded as rationals (the verified
claims are order and arithmetic facts that hold exactly), `collections.deque`
with a `maxlen` bound is a list with bounded append (`dequeAppend`), the wall
clock read by `time.time()` inside `GestureSmoother.update` is passed as an
explicit `current_time` argument, and `numpy` one-dimensional arrays are lists
of rationals.
-/

/-- Bounded append modelling `collections.deque(maxlen := n).append(x)`:
the new element goes to the back and the oldest elements are evicted from the
front so that at most `n` elements remain. -/
def dequeAppend (maxlen : Nat) (xs : List α) (x : α) : List α :=
  let ys := xs ++ [x]
  if maxlen < ys.length then ys.drop (ys.length - maxlen) else ys

/-- State of `ConfidenceFilter` (src/src/recognition/confidence_filter.py).
`history` is a deque with `maxlen = 5`, oldest entry first. -/
structure ConfidenceFilter where
  threshold : ℚ
  smoothing : ℚ
  history : List (String × ℚ)
  last_prediction : Option String
  last_confidence : ℚ
  deriving Repr, DecidableEq

/-- `ConfidenceFilter.__init__`. -/
def ConfidenceFilter.init (threshold smoothing : ℚ) : ConfidenceFilter :=
  ⟨threshold, smoothing, [], none, 0⟩

/-- `ConfidenceFilter._smooth_confidence`: exponential smoothing against the
last accepted confidence when the label matches the last accepted prediction,
otherwise the raw confidence. -/
def ConfidenceFilter.smoothConfidence (f : ConfidenceFilter) (prediction : String)
    (confidence : ℚ) : ℚ :=
  if f.last_prediction = some prediction then
    f.smoothing * confidence + (1 - f.smoothing) * f.last_confidence
  else confidence

/-- `ConfidenceFilter._is_stable`: stable when fewer than 3 history entries
exist, otherwise at least 2 of the last 3 entries must carry this label. -/
def ConfidenceFilter.is_stable (f : ConfidenceFilter) (prediction : String) : Bool :=
  if f.history.length < 3 then true
  else
    2 ≤ ((f.history.drop (f.history.length - 3)).filter
          (fun e => decide (e.1 = prediction))).length

/-- `ConfidenceFilter.filter`: smooth, append to history, reject below
threshold, reject unstable, otherwise accept and update the last accepted
state.  Returns the optional accepted label together with the new state. -/
def ConfidenceFilter.filter (f : ConfidenceFilter) (prediction : String)
    (confidence : ℚ) : Option String × ConfidenceFilter :=
  let smoothed := f.smoothConfidence prediction confidence
  let f1 : ConfidenceFilter :=
    { f with history := dequeAppend 5 f.history (prediction, smoothed) }
  if smoothed < f1.threshold then (none, f1)
  else if f1.is_stable prediction then
    (some prediction,
     { f1 with last_prediction := some prediction, last_confidence := smoothed })
  else (none, f1)

/-- `ConfidenceFilter.reset`. -/
def ConfidenceFilter.reset (f : ConfidenceFilter) : ConfidenceFilter :=
  { f with history := [], last_prediction := none, last_confidence := 0 }

/-- State of `GestureSmoother` (src/src/recognition/gesture_smoother.py),
the gesture debouncer.  `output_history` is a deque with `maxlen = 10`
holding `(label, confidence, emit_time)` triples. -/
structure GestureSmoother where
  min_duration : ℚ
  cooldown : ℚ
  current_gesture : Option String
  gesture_start_time : ℚ
  last_output_time : ℚ
  output_history : List (String × ℚ × ℚ)
  deriving Repr, DecidableEq

/-- `GestureSmoother.__init__`. -/
def GestureSmoother.init (min_duration cooldown : ℚ) : GestureSmoother :=
  ⟨min_duration, cooldown, none, 0, 0, []⟩

/-- `GestureSmoother.update` at explicit time `current_time` (the Python code
reads `time.time()`).  Returns the optional emitted event together with the
new state. -/
def GestureSmoother.update (s : GestureSmoother) (prediction : String)
    (confidence : ℚ) (current_time : ℚ) : Option (String × ℚ) × GestureSmoother :=
  if s.current_gesture ≠ some prediction then
    (none, { s with current_gesture := some prediction,
                    gesture_start_time := current_time })
  else if current_time - s.gesture_start_time < s.min_duration then (none, s)
  else if current_time - s.last_output_time < s.cooldown then (none, s)
  else if (s.output_history.getLast?).map (fun e => e.1) = some prediction then
    (none, s)
  else
    (some (prediction, confidence),
     { s with last_output_time := current_time,
              output_history :=
                dequeAppend 10 s.output_history (prediction, confidence, current_time) })

/-- `GestureSmoother.reset`: clears `current_gesture`, `gesture_start_time`
and `output_history`; the Python code does not touch `last_output_time`. -/
def GestureSmoother.reset (s : GestureSmoother) : GestureSmoother :=
  { s with current_gesture := none, gesture_start_time := 0, output_history := [] }

/-- State of `TemporalBuffer` (src/src/vision/temporal_buffer.py).  The
buffer is a deque with `maxlen = window_size`; a feature vector is a list of
rationals whose length is the numpy `shape[0]`. -/
structure TemporalBuffer where
  window_size : Nat
  buffer : List (List ℚ)
  feature_size : Option Nat
  deriving Repr, DecidableEq

/-- `TemporalBuffer.__init__`. -/
def TemporalBuffer.init (window_size : Nat) : TemporalBuffer :=
  ⟨window_size, [], none⟩

/-- `TemporalBuffer.add`: records `feature_size` from the first vector and
appends; the Python code performs no length validation on later vectors. -/
def TemporalBuffer.add (b : TemporalBuffer) (landmarks : List ℚ) : TemporalBuffer :=
  { b with
      feature_size :=
        match b.feature_size with
        | none => some landmarks.length
        | some n => some n,
      buffer := dequeAppend b.window_size b.buffer landmarks }

/-- `TemporalBuffer.get_sequence`: a snapshot of the buffer when it is full,
none otherwise (the Python code copies the deque into a fresh numpy array). -/
def TemporalBuffer.get_sequence (b : TemporalBuffer) : Option (List (List ℚ)) :=
  if b.buffer.length < b.window_size then none else some b.buffer

/-- `TemporalBuffer.clear`. -/
def TemporalBuffer.clear (b : TemporalBuffer) : TemporalBuffer :=
  { b with buffer := [] }

/-- `CameraManager._adapt_frame_rate` (src/src/vision/camera.py): one step of
the adaptive rate controller on the current sleep interval. -/
def adapt_frame_rate (min_fps target_fps current_fps current_interval : ℚ) : ℚ :=
  if current_fps < min_fps then min (current_interval * (11 / 10)) (1 / min_fps)
  else if target_fps * (19 / 20) < current_fps then
    max (current_interval * (19 / 20)) (1 / target_fps)
  else current_interval

/-- Event kinds returned by `process_frame` in src/src/server.py. -/
inductive FrameEvent where
  | no_detection
  | buffering
  | low_confidence
  | recognition (sign : String) (confidence : ℚ)
  deriving Repr, DecidableEq

/-- Recognition state held in `app.state` in src/src/server.py relevant to
frame processing: a temporal buffer and a confidence filter.  The server
never constructs a `GestureSmoother`; no debouncer state exists in the
frame-processing path. -/
structure PipelineState where
  temporal_buffer : TemporalBuffer
  confidence_filter : ConfidenceFilter
  deriving Repr, DecidableEq

/-- `process_frame` (src/src/server.py, after frame decoding): the landmark
extraction result is passed in as an optional feature vector and the
classifier as a function from a full window to a `(label, confidence)` pair.
A prediction accepted by the confidence filter is returned directly as a
`recognition` event; no debouncer runs between the filter and the event. -/
def process_frame (classify : List (List ℚ) → String × ℚ) (st : PipelineState)
    (landmarks : Option (List ℚ)) : FrameEvent × PipelineState :=
  match landmarks with
  | none => (FrameEvent.no_detection, st)
  | some lm =>
    let buf := st.temporal_buffer.add lm
    match buf.get_sequence with
    | none => (FrameEvent.buffering, { st with temporal_buffer := buf })
    | some seq =>
      let pc := classify seq
      let r := st.confidence_filter.filter pc.1 pc.2
      match r.1 with
      | none => (FrameEvent.low_confidence, ⟨buf, r.2⟩)
      | some p => (FrameEvent.recognition p pc.2, ⟨buf, r.2⟩)

/-- Comparison used to model `np.argsort(probs)` on index `i` and `j`:
ascending by value with ties kept in ascending index order (numpy yields this
stable order on the inputs considered here). -/
def argsortRel (probs : List ℚ) (i j : Nat) : Prop :=
  probs.getD i 0 < probs.getD j 0 ∨ (probs.getD i 0 = probs.getD j 0 ∧ i ≤ j)

instance (probs : List ℚ) : DecidableRel (argsortRel probs) := fun i j => by
  unfold argsortRel
  infer_instance

/-- Model of `np.argsort(probs)`: the list of indices of `probs` sorted
ascending by value, ties in ascending index order. -/
def argsort (probs : List ℚ) : List Nat :=
  List.insertionSort (argsortRel probs) (List.range probs.length)

/-- Model of the Python slice `xs[-k:]` for an arbitrary integer `k`.
For `k > 0` it keeps the last `min k (length xs)` elements; for `k = 0` the
start index `-0` is `0`, so the whole list is kept; for `k < 0` it drops the
first `-k` elements. -/
def pyTailSlice (k : Int) (xs : List α) : List α :=
  if 0 < k then xs.drop (xs.length - min k.toNat xs.length)
  else xs.drop (-k).toNat

/-- The index list `np.argsort(probs)[-k:][::-1]` computed by
`GestureClassifier.predict_top_k` (src/src/recognition/classifier.py). -/
def top_k_indices (probs : List ℚ) (k : Int) : List Nat :=
  (pyTailSlice k (argsort probs)).reverse

/-- `GestureClassifier.predict_top_k` after inference: `probs` is the
normalized probability vector produced by the backend and `labels` the label
table; the result pairs each selected index with its label and probability. -/
def predict_top_k (labels : List String) (probs : List ℚ) (k : Int) :
    List (String × ℚ) :=
  (top_k_indices probs k).map (fun i => (labels.getD i "", probs.getD i 0))

/-- Label of the `i`-th update call in a trace of `(label, confidence, time)`
inputs fed to `GestureSmoother.update`. -/
def labelAt (l : List (String × ℚ × ℚ)) (i : Nat) : String :=
  (l.getD i ("", 0, 0)).1

/-- Confidence of the `i`-th update call in a trace. -/
def confAt (l : List (String × ℚ × ℚ)) (i : Nat) : ℚ :=
  (l.getD i ("", 0, 0)).2.1

/-- Timestamp of the `i`-th update call in a trace. -/
def timeAt (l : List (String × ℚ × ℚ)) (i : Nat) : ℚ :=
  (l.getD i ("", 0, 0)).2.2

/-- One `GestureSmoother.update` step, keeping only the state. -/
def stepGS (s : GestureSmoother) (inp : String × ℚ × ℚ) : GestureSmoother :=
  (s.update inp.1 inp.2.1 inp.2.2).2

/-- Smoother state after the first `i` update calls of a trace, starting from
a freshly constructed smoother. -/
def stateAt (md cd : ℚ) (l : List (String × ℚ × ℚ)) (i : Nat) : GestureSmoother :=
  (l.take i).foldl stepGS (GestureSmoother.init md cd)

/-- Event emitted by the `i`-th update call of a trace (none when the call is
suppressed). -/
def outAt (md cd : ℚ) (l : List (String × ℚ × ℚ)) (i : Nat) : Option (String × ℚ) :=
  ((stateAt md cd l i).update (labelAt l i) (confAt l i) (timeAt l i)).1

/-- Concrete smoother run for the reset analysis: with the default timing
configuration, the label a is observed at times 10 and 10.4 (emitting at
10.4) and then `reset` is called. -/
def gsAfterEmitAndReset : GestureSmoother :=
  ((((GestureSmoother.init (3/10) (1/2)).update "a" (9/10) 10).2.update
      "a" (9/10) (52/5)).2).reset

/-- Concrete two-call trace for the debouncer guarantees: the label a at
confidence 9/10 observed at times 0 and 2/5. -/
def c6Trace : List (String × ℚ × ℚ) := [("a", 9/10, 0), ("a", 9/10, 2/5)]

/-- Constant classifier used to drive the frame-processing model: every full
window classifies as the label yes with confidence 9/10. -/
def constClassify : List (List ℚ) → String × ℚ := fun _ => ("yes", 9/10)

/-- Pipeline state as built in `create_app` (src/src/server.py) with
`temporal_window = 1`, `confidence_threshold = 0.7`, `smoothing_factor = 0.3`. -/
def pipelineInit : PipelineState :=
  ⟨TemporalBuffer.init 1, ConfidenceFilter.init (7/10) (3/10)⟩

/-! Basic facts about the bounded deque append. -/

theorem dequeAppend_eq (n : Nat) (hn : 1 ≤ n) (xs : List α) (x : α) :
    dequeAppend n xs x = xs.drop (xs.length + 1 - n) ++ [x] := by
  simp only [dequeAppend]
  by_cases h : n < (xs ++ [x]).length
  · rw [if_pos h]
    have hlen : (xs ++ [x]).length = xs.length + 1 := by simp
    rw [hlen]
    rw [List.drop_append_of_le_length (by omega)]
  · rw [if_neg h]
    have hlen : xs.length + 1 ≤ n := by
      simp only [List.length_append, List.length_cons, List.length_nil] at h
      omega
    have hz : xs.length + 1 - n = 0 := by omega
    rw [hz, List.drop_zero]

theorem length_dequeAppend (n : Nat) (xs : List α) (x : α) :
    (dequeAppend n xs x).length = min (xs.length + 1) n := by
  simp only [dequeAppend]
  by_cases h : n < (xs ++ [x]).length
  · rw [if_pos h]
    simp only [List.length_drop, List.length_append, List.length_cons,
      List.length_nil] at *
    omega
  · rw [if_neg h]
    simp only [List.length_append, List.length_cons, List.length_nil] at *
    omega

theorem getLast?_dequeAppend (n : Nat) (hn : 1 ≤ n) (xs : List α) (x : α) :
    (dequeAppend n xs x).getLast? = some x := by
  rw [dequeAppend_eq n hn xs x, List.getLast?_concat]

theorem suffix_dequeAppend {t xs : List α} (n : Nat) (y : α) (h : t <:+ xs)
    (hlt : t.length < n) : t ++ [y] <:+ dequeAppend n xs y := by
  obtain ⟨u, hu⟩ := h
  rw [dequeAppend_eq n (by omega) xs y]
  subst hu
  have hd : (u ++ t).length + 1 - n ≤ u.length := by
    simp only [List.length_append]
    omega
  rw [List.drop_append_of_le_length hd]
  exact ⟨u.drop ((u ++ t).length + 1 - n), by simp⟩

theorem suffix_drop_eq {t ys : List α} (h : t <:+ ys) :
    ys.drop (ys.length - t.length) = t := by
  obtain ⟨u, hu⟩ := h
  subst hu
  have hl : (u ++ t).length - t.length = u.length := by simp
  rw [hl, List.drop_left]

/-! Structural facts about `ConfidenceFilter.filter`. -/

theorem ConfidenceFilter.filter_threshold (f : ConfidenceFilter) (p : String) (c : ℚ) :
    (f.filter p c).2.threshold = f.threshold := by
  simp only [ConfidenceFilter.filter]
  split_ifs <;> rfl

theorem ConfidenceFilter.filter_smoothing (f : ConfidenceFilter) (p : String) (c : ℚ) :
    (f.filter p c).2.smoothing = f.smoothing := by
  simp only [ConfidenceFilter.filter]
  split_ifs <;> rfl

theorem ConfidenceFilter.filter_history (f : ConfidenceFilter) (p : String) (c : ℚ) :
    (f.filter p c).2.history = dequeAppend 5 f.history (p, f.smoothConfidence p c) := by
  simp only [ConfidenceFilter.filter]
  split_ifs <;> rfl

theorem ConfidenceFilter.is_stable_iff (f : ConfidenceFilter) (p : String) :
    f.is_stable p = true ↔
      (f.history.length < 3 ∨
       2 ≤ ((f.history.drop (f.history.length - 3)).filter
             (fun e => decide (e.1 = p))).length) := by
  simp only [ConfidenceFilter.is_stable]
  split_ifs with h
  · simp [h]
  · simp [h, decide_eq_true_iff]

example : ((ConfidenceFilter.init (7/10) (3/10)).filter "a" (9/10)).1 = some "a" := by
  simp [ConfidenceFilter.filter, ConfidenceFilter.init,
    ConfidenceFilter.smoothConfidence, ConfidenceFilter.is_stable, dequeAppend]
  norm_num

example :
    ((((ConfidenceFilter.init (7/10) (3/10)).filter "a" (9/10)).2).filter "a" (3/5)).1
      = some "a" := by
  simp [ConfidenceFilter.filter, ConfidenceFilter.init,
    ConfidenceFilter.smoothConfidence, ConfidenceFilter.is_stable, dequeAppend]
  norm_num

example : top_k_indices [(1:ℚ)/2, 1/2] 2 = [1, 0] := by
  simp [top_k_indices, pyTailSlice, argsort, argsortRel, List.insertionSort,
    List.orderedInsert]

example : (predict_top_k ["a", "b"] [(1:ℚ)/2, 1/2] 0).length = 2 := by
  simp [predict_top_k, top_k_indices, pyTailSlice, argsort, argsortRel,
    List.insertionSort, List.orderedInsert]

/-- C1 counterexample: the Python threshold check compares the SMOOTHED
confidence, not the confidence argument.  After accepting the label a at
confidence 9/10, a second call with raw confidence 3/5 (below the 7/10
threshold) smooths to 81/100 and is returned, so a below-threshold confidence
argument does not always yield none. -/
theorem filter_low_raw_confidence_counterexample :
    ((3 : ℚ)/5 < 7/10) ∧
    ((((ConfidenceFilter.init (7/10) (3/10)).filter "a" (9/10)).2).filter
        "a" (3/5)).1 = some "a" := by
  constructor
  · norm_num
  · simp [ConfidenceFilter.filter, ConfidenceFilter.init,
      ConfidenceFilter.smoothConfidence, ConfidenceFilter.is_stable, dequeAppend]
    norm_num

/-- C1 (amended): for every call to `ConfidenceFilter.filter` whose SMOOTHED
confidence (the exponential blend of the confidence argument with the last
accepted confidence when the label matches the last accepted prediction, and
the raw argument otherwise) is below the configured threshold, the call
returns none, regardless of the history and last-accepted state. -/
theorem filter_rejects_low_smoothed (f : ConfidenceFilter) (p : String) (c : ℚ)
    (h : f.smoothConfidence p c < f.threshold) : (f.filter p c).1 = none := by
  simp only [ConfidenceFilter.filter]
  rw [if_pos h]

/-- C1 witness: a fresh filter with threshold 7/10 rejects the label a at
confidence 1/2. -/
theorem filter_rejects_low_smoothed_witness :
    (ConfidenceFilter.init (7/10) (3/10)).smoothConfidence "a" (1/2)
        < (ConfidenceFilter.init (7/10) (3/10)).threshold ∧
    ((ConfidenceFilter.init (7/10) (3/10)).filter "a" (1/2)).1 = none := by
  have h : (ConfidenceFilter.init (7/10) (3/10)).smoothConfidence "a" (1/2)
      < (ConfidenceFilter.init (7/10) (3/10)).threshold := by
    simp [ConfidenceFilter.smoothConfidence, ConfidenceFilter.init]
    norm_num
  exact ⟨h, filter_rejects_low_smoothed _ _ _ h⟩

/-- C10: every rejecting call to `ConfidenceFilter.filter` leaves the
last-accepted state (`last_prediction`, `last_confidence`) unchanged while
still appending the (label, smoothed confidence) pair to the history, which
stays bounded by 5 entries. -/
theorem filter_none_frame_effect (f : ConfidenceFilter) (p : String) (c : ℚ)
    (hnone : (f.filter p c).1 = none) :
    (f.filter p c).2.last_prediction = f.last_prediction ∧
    (f.filter p c).2.last_confidence = f.last_confidence ∧
    (f.filter p c).2.history = dequeAppend 5 f.history (p, f.smoothConfidence p c) ∧
    (f.filter p c).2.history.length ≤ 5 := by
  have hlen : (dequeAppend 5 f.history (p, f.smoothConfidence p c)).length ≤ 5 := by
    rw [length_dequeAppend]
    omega
  simp only [ConfidenceFilter.filter] at hnone ⊢
  split_ifs at hnone ⊢ with h1 h2
  · exact ⟨rfl, rfl, rfl, hlen⟩
  · exact ⟨rfl, rfl, rfl, hlen⟩

/-- C10 witness: a below-threshold call on a fresh filter rejects, keeps the
last-accepted state and appends to history. -/
theorem filter_none_frame_effect_witness :
    ((ConfidenceFilter.init (7/10) (3/10)).filter "a" (1/2)).1 = none ∧
    (((ConfidenceFilter.init (7/10) (3/10)).filter "a" (1/2)).2.last_prediction
        = (ConfidenceFilter.init (7/10) (3/10)).last_prediction ∧
     ((ConfidenceFilter.init (7/10) (3/10)).filter "a" (1/2)).2.last_confidence
        = (ConfidenceFilter.init (7/10) (3/10)).last_confidence ∧
     ((ConfidenceFilter.init (7/10) (3/10)).filter "a" (1/2)).2.history
        = dequeAppend 5 (ConfidenceFilter.init (7/10) (3/10)).history
            ("a", (ConfidenceFilter.init (7/10) (3/10)).smoothConfidence "a" (1/2)) ∧
     ((ConfidenceFilter.init (7/10) (3/10)).filter "a" (1/2)).2.history.length ≤ 5) := by
  have h : ((ConfidenceFilter.init (7/10) (3/10)).filter "a" (1/2)).1 = none := by
    simp [ConfidenceFilter.filter, ConfidenceFilter.init,
      ConfidenceFilter.smoothConfidence, ConfidenceFilter.is_stable, dequeAppend]
    norm_num
  exact ⟨h, filter_none_frame_effect _ _ _ h⟩

/-- C4 (code evaluation at the failing input): `TemporalBuffer.add` records
`feature_size = 2` from the first pushed vector and then silently accepts a
vector of length 3; no mismatch failure exists in the code (the Python method
raises nothing and has no error path). -/
theorem temporal_buffer_accepts_mismatched_vector :
    ((TemporalBuffer.init 15).add [0, 0]).add [0, 0, 0]
      = ⟨15, [[0, 0], [0, 0, 0]], some 2⟩ := by
  rfl

/-- C8: acceptance by `ConfidenceFilter.filter` is characterized by the
smoothed confidence reaching the threshold together with the stability rule
on the post-append history (fewer than 3 entries, or at least 2 of the last 3
entries carrying this label); consequently the same label repeated with
above-threshold smoothed confidence for 3 consecutive calls is returned on
the 3rd call, from any starting state. -/
theorem filter_stability_rule :
    (∀ (f : ConfidenceFilter) (p : String) (c : ℚ),
        (f.filter p c).1 = some p ↔
          (f.threshold ≤ f.smoothConfidence p c ∧
           ((dequeAppend 5 f.history (p, f.smoothConfidence p c)).length < 3 ∨
            2 ≤ (((dequeAppend 5 f.history (p, f.smoothConfidence p c)).drop
                   ((dequeAppend 5 f.history (p, f.smoothConfidence p c)).length - 3)).filter
                   (fun e => decide (e.1 = p))).length))) ∧
    (∀ (f0 : ConfidenceFilter) (p : String) (c1 c2 c3 : ℚ),
        f0.threshold ≤ f0.smoothConfidence p c1 →
        f0.threshold ≤ ((f0.filter p c1).2).smoothConfidence p c2 →
        f0.threshold ≤ (((f0.filter p c1).2).filter p c2).2.smoothConfidence p c3 →
        ((((f0.filter p c1).2).filter p c2).2.filter p c3).1 = some p) := by
  have hchar : ∀ (f : ConfidenceFilter) (p : String) (c : ℚ),
      (f.filter p c).1 = some p ↔
        (f.threshold ≤ f.smoothConfidence p c ∧
         ((dequeAppend 5 f.history (p, f.smoothConfidence p c)).length < 3 ∨
          2 ≤ (((dequeAppend 5 f.history (p, f.smoothConfidence p c)).drop
                 ((dequeAppend 5 f.history (p, f.smoothConfidence p c)).length - 3)).filter
                 (fun e => decide (e.1 = p))).length)) := by
    intro f p c
    simp only [ConfidenceFilter.filter]
    split_ifs with h1 h2
    · constructor
      · intro h
        simp at h
      · rintro ⟨hth, _⟩
        exact absurd h1 (not_lt.2 hth)
    · constructor
      · intro _
        refine ⟨not_lt.1 h1, ?_⟩
        have hs := (ConfidenceFilter.is_stable_iff _ p).1 h2
        simpa using hs
      · intro _
        rfl
    · constructor
      · intro h
        simp at h
      · rintro ⟨hth, hstab⟩
        exact absurd ((ConfidenceFilter.is_stable_iff _ p).2 (by simpa using hstab)) h2
  refine ⟨hchar, ?_⟩
  intro f0 p c1 c2 c3 h1 h2 h3
  have hh1 : ((f0.filter p c1).2).history
      = dequeAppend 5 f0.history (p, f0.smoothConfidence p c1) :=
    ConfidenceFilter.filter_history f0 p c1
  have hh2 : (((f0.filter p c1).2).filter p c2).2.history
      = dequeAppend 5 ((f0.filter p c1).2).history
          (p, ((f0.filter p c1).2).smoothConfidence p c2) :=
    ConfidenceFilter.filter_history _ p c2
  have ht2 : (((f0.filter p c1).2).filter p c2).2.threshold = f0.threshold := by
    rw [ConfidenceFilter.filter_threshold, ConfidenceFilter.filter_threshold]
  have suf1 : [(p, f0.smoothConfidence p c1)] <:+ ((f0.filter p c1).2).history := by
    rw [hh1, dequeAppend_eq 5 (by omega)]
    exact ⟨_, rfl⟩
  have suf2 : [(p, f0.smoothConfidence p c1),
               (p, ((f0.filter p c1).2).smoothConfidence p c2)]
      <:+ (((f0.filter p c1).2).filter p c2).2.history := by
    rw [hh2]
    exact suffix_dequeAppend 5 _ suf1 (by simp)
  have suf3 : [(p, f0.smoothConfidence p c1),
               (p, ((f0.filter p c1).2).smoothConfidence p c2),
               (p, (((f0.filter p c1).2).filter p c2).2.smoothConfidence p c3)]
      <:+ dequeAppend 5 (((f0.filter p c1).2).filter p c2).2.history
            (p, (((f0.filter p c1).2).filter p c2).2.smoothConfidence p c3) :=
    suffix_dequeAppend 5 _ suf2 (by simp)
  have hdrop := suffix_drop_eq suf3
  refine (hchar _ p c3).2 ⟨ht2 ▸ h3, Or.inr ?_⟩
  simp only [List.length_cons, List.length_nil] at hdrop
  rw [hdrop]
  simp

/-- C8 witness: from a fresh filter with threshold 7/10, three consecutive
calls with the label a at confidence 9/10 keep the smoothed confidence at
9/10 and the 3rd call returns the label. -/
theorem filter_stability_rule_witness :
    ((ConfidenceFilter.init (7/10) (3/10)).threshold
        ≤ (ConfidenceFilter.init (7/10) (3/10)).smoothConfidence "a" (9/10)) ∧
    ((ConfidenceFilter.init (7/10) (3/10)).threshold
        ≤ (((ConfidenceFilter.init (7/10) (3/10)).filter "a" (9/10)).2).smoothConfidence
            "a" (9/10)) ∧
    ((ConfidenceFilter.init (7/10) (3/10)).threshold
        ≤ ((((ConfidenceFilter.init (7/10) (3/10)).filter "a" (9/10)).2).filter
            "a" (9/10)).2.smoothConfidence "a" (9/10)) ∧
    (((((ConfidenceFilter.init (7/10) (3/10)).filter "a" (9/10)).2).filter
        "a" (9/10)).2.filter "a" (9/10)).1 = some "a" := by
  have h1 : (ConfidenceFilter.init (7/10) (3/10)).threshold
      ≤ (ConfidenceFilter.init (7/10) (3/10)).smoothConfidence "a" (9/10) := by
    simp [ConfidenceFilter.smoothConfidence, ConfidenceFilter.init]
    norm_num
  have h2 : (ConfidenceFilter.init (7/10) (3/10)).threshold
      ≤ (((ConfidenceFilter.init (7/10) (3/10)).filter "a" (9/10)).2).smoothConfidence
          "a" (9/10) := by
    simp [ConfidenceFilter.filter, ConfidenceFilter.smoothConfidence,
      ConfidenceFilter.init, ConfidenceFilter.is_stable, dequeAppend]
    norm_num
  have h3 : (ConfidenceFilter.init (7/10) (3/10)).threshold
      ≤ ((((ConfidenceFilter.init (7/10) (3/10)).filter "a" (9/10)).2).filter
          "a" (9/10)).2.smoothConfidence "a" (9/10) := by
    simp [ConfidenceFilter.filter, ConfidenceFilter.smoothConfidence,
      ConfidenceFilter.init, ConfidenceFilter.is_stable, dequeAppend]
    norm_num
  exact ⟨h1, h2, h3, filter_stability_rule.2 _ "a" (9/10) (9/10) (9/10) h1 h2 h3⟩

/-- C2 (code evaluation at the failing input): after the smoother emits the
label a at time 10.4 and `reset` is called, `last_output_time` still holds
10.4 instead of its initial value 0, even though the other timers and the
history are cleared.  A post-reset episode of the label b held from 10.5 to
10.8 (0.3 seconds, meeting `min_duration`) is therefore suppressed by the
stale cooldown, while the very same calls on a fresh smoother emit. -/
theorem gesture_smoother_reset_keeps_last_output_time :
    gsAfterEmitAndReset.last_output_time = 52/5 ∧
    gsAfterEmitAndReset.current_gesture = none ∧
    gsAfterEmitAndReset.gesture_start_time = 0 ∧
    gsAfterEmitAndReset.output_history = [] ∧
    (((gsAfterEmitAndReset.update "b" (9/10) (21/2)).2).update
        "b" (9/10) (54/5)).1 = none ∧
    ((((GestureSmoother.init (3/10) (1/2)).update "b" (9/10) (21/2)).2).update
        "b" (9/10) (54/5)).1 = some ("b", 9/10) := by
  refine ⟨?_, ?_, ?_, ?_, ?_, ?_⟩
  · simp [gsAfterEmitAndReset, GestureSmoother.update, GestureSmoother.reset,
      GestureSmoother.init, dequeAppend]
    norm_num
  · simp [gsAfterEmitAndReset, GestureSmoother.update, GestureSmoother.reset,
      GestureSmoother.init, dequeAppend]
  · simp [gsAfterEmitAndReset, GestureSmoother.update, GestureSmoother.reset,
      GestureSmoother.init, dequeAppend]
  · simp [gsAfterEmitAndReset, GestureSmoother.update, GestureSmoother.reset,
      GestureSmoother.init, dequeAppend]
  · simp [gsAfterEmitAndReset, GestureSmoother.update, GestureSmoother.reset,
      GestureSmoother.init, dequeAppend]
    norm_num
  · simp [GestureSmoother.update, GestureSmoother.init, dequeAppend]
    norm_num

/-- C3 (code evaluation at the failing input): with window size 1 and a
classifier constantly answering yes at confidence 9/10, two consecutive
`process_frame` calls both deliver a `recognition` event for the same
continuously held label; no `GestureSmoother` is consulted anywhere in the
path (the pipeline state contains no debouncer), so neither the
first-observation rule nor the cooldown of the debouncer is applied. -/
theorem process_frame_no_debouncer :
    (process_frame constClassify pipelineInit (some [0])).1
      = FrameEvent.recognition "yes" (9/10) ∧
    (process_frame constClassify
        (process_frame constClassify pipelineInit (some [0])).2 (some [0])).1
      = FrameEvent.recognition "yes" (9/10) := by
  constructor
  · simp [process_frame, constClassify, pipelineInit, TemporalBuffer.init,
      TemporalBuffer.add, TemporalBuffer.get_sequence, ConfidenceFilter.filter,
      ConfidenceFilter.init, ConfidenceFilter.smoothConfidence,
      ConfidenceFilter.is_stable, dequeAppend]
    norm_num
  · simp [process_frame, constClassify, pipelineInit, TemporalBuffer.init,
      TemporalBuffer.add, TemporalBuffer.get_sequence, ConfidenceFilter.filter,
      ConfidenceFilter.init, ConfidenceFilter.smoothConfidence,
      ConfidenceFilter.is_stable, dequeAppend]
    norm_num

/-- Folding any sequence of pushes over a buffer whose occupancy respects its
capacity preserves the capacity and makes the occupancy the minimum of the
total number of pushes available and the capacity. -/
theorem temporalBuffer_fold_spec (pushes : List (List ℚ)) :
    ∀ b : TemporalBuffer, b.buffer.length ≤ b.window_size →
      ((pushes.foldl TemporalBuffer.add b).window_size = b.window_size ∧
       (pushes.foldl TemporalBuffer.add b).buffer.length
         = min (b.buffer.length + pushes.length) b.window_size) := by
  induction pushes with
  | nil =>
    intro b hb
    refine ⟨rfl, ?_⟩
    simp only [List.foldl_nil, List.length_nil, Nat.add_zero]
    exact (Nat.min_eq_left hb).symm
  | cons v rest ih =>
    intro b hb
    have h1 : (b.add v).window_size = b.window_size := rfl
    have h2 : (b.add v).buffer.length = min (b.buffer.length + 1) b.window_size := by
      simp only [TemporalBuffer.add]
      exact length_dequeAppend _ _ _
    have hb' : (b.add v).buffer.length ≤ (b.add v).window_size := by
      rw [h1, h2]
      omega
    obtain ⟨hws, hlen⟩ := ih (b.add v) hb'
    constructor
    · rw [List.foldl_cons, hws, h1]
    · rw [List.foldl_cons, hlen, h2, h1, List.length_cons]
      omega

/-- C7: for every sequence of pushes of a consistent feature length, the
buffer never holds more than `window_size` vectors, `get_sequence` returns
none exactly while fewer than `window_size` pushes have occurred, and when it
returns a window that window is a snapshot equal to the buffer contents (the
buffer itself is untouched, `get_sequence` being a pure observation of the
state). -/
theorem temporal_window_invariant (ws : Nat) (pushes : List (List ℚ)) (fs : Nat)
    (hconsistent : ∀ v ∈ pushes, v.length = fs) :
    (pushes.foldl TemporalBuffer.add (TemporalBuffer.init ws)).buffer.length ≤ ws ∧
    ((pushes.foldl TemporalBuffer.add (TemporalBuffer.init ws)).get_sequence = none
      ↔ pushes.length < ws) ∧
    ∀ s, (pushes.foldl TemporalBuffer.add (TemporalBuffer.init ws)).get_sequence = some s
      → s = (pushes.foldl TemporalBuffer.add (TemporalBuffer.init ws)).buffer := by
  obtain ⟨hws, hlen⟩ :=
    temporalBuffer_fold_spec pushes (TemporalBuffer.init ws) (by simp [TemporalBuffer.init])
  have hws' : (pushes.foldl TemporalBuffer.add (TemporalBuffer.init ws)).window_size
      = ws := hws
  have hlen0 : (pushes.foldl TemporalBuffer.add (TemporalBuffer.init ws)).buffer.length
      = min (0 + pushes.length) ws := hlen
  rw [Nat.zero_add] at hlen0
  refine ⟨by omega, ?_, ?_⟩
  · simp only [TemporalBuffer.get_sequence, hws', hlen0]
    constructor
    · intro h
      by_cases hc : min pushes.length ws < ws
      · omega
      · rw [if_neg hc] at h
        simp at h
    · intro h
      rw [if_pos (by omega)]
  · intro s hs
    simp only [TemporalBuffer.get_sequence] at hs
    split_ifs at hs with hc
    exact (Option.some.inj hs).symm

/-- C7 witness: two pushes of one-element vectors into a buffer of capacity
two fill it and `get_sequence` returns the snapshot. -/
theorem temporal_window_invariant_witness :
    (∀ v ∈ [[(0:ℚ)], [0]], v.length = 1) ∧
    (([[(0:ℚ)], [0]].foldl TemporalBuffer.add (TemporalBuffer.init 2)).buffer.length ≤ 2 ∧
     (([[(0:ℚ)], [0]].foldl TemporalBuffer.add (TemporalBuffer.init 2)).get_sequence = none
       ↔ ([[(0:ℚ)], [0]] : List (List ℚ)).length < 2) ∧
     ∀ s, ([[(0:ℚ)], [0]].foldl TemporalBuffer.add (TemporalBuffer.init 2)).get_sequence = some s
       → s = ([[(0:ℚ)], [0]].foldl TemporalBuffer.add (TemporalBuffer.init 2)).buffer) := by
  have hc : ∀ v ∈ [[(0:ℚ)], [0]], v.length = 1 := by
    intro v hv
    simp only [List.mem_cons, List.not_mem_nil, or_false] at hv
    rcases hv with h | h <;> subst h <;> rfl
  exact ⟨hc, temporal_window_invariant 2 [[(0:ℚ)], [0]] 1 hc⟩

/-- C9: one adaptive-rate step keeps a sleep interval lying in
[1/target_fps, 1/min_fps] inside that range; while the measured rate is below
`min_fps` the step multiplies the interval by 11/10 clamped to the 1/min_fps
ceiling, hence never decreases it, and no step ever decreases the interval
below 1/target_fps. -/
theorem adapt_frame_rate_bounds (min_fps target_fps current_fps current_interval : ℚ)
    (hmin : 0 < min_fps) (hmt : min_fps ≤ target_fps)
    (hlo : 1 / target_fps ≤ current_interval)
    (hhi : current_interval ≤ 1 / min_fps) :
    (1 / target_fps ≤ adapt_frame_rate min_fps target_fps current_fps current_interval ∧
     adapt_frame_rate min_fps target_fps current_fps current_interval ≤ 1 / min_fps) ∧
    (current_fps < min_fps →
      current_interval ≤ adapt_frame_rate min_fps target_fps current_fps current_interval ∧
      adapt_frame_rate min_fps target_fps current_fps current_interval
        = min (current_interval * (11/10)) (1 / min_fps)) := by
  have htarget : 0 < target_fps := lt_of_lt_of_le hmin hmt
  have hipos : 0 < current_interval := lt_of_lt_of_le (by positivity) hlo
  have hmono : 1 / target_fps ≤ 1 / min_fps := one_div_le_one_div_of_le hmin hmt
  unfold adapt_frame_rate
  split_ifs with h1 h2
  · refine ⟨⟨le_min (by nlinarith) hmono, min_le_right _ _⟩, fun _ => ⟨?_, rfl⟩⟩
    exact le_min (by nlinarith) hhi
  · exact ⟨⟨le_max_right _ _, max_le (by nlinarith) hmono⟩, fun hc => absurd hc h1⟩
  · exact ⟨⟨hlo, hhi⟩, fun hc => absurd hc h1⟩

/-- C9 witness: with `min_fps = 15`, `target_fps = 30`, a measured rate of 10
and interval 1/20, the step increases the interval to min(11/200, 1/15)
inside the allowed range. -/
theorem adapt_frame_rate_bounds_witness :
    ((0:ℚ) < 15 ∧ (15:ℚ) ≤ 30 ∧ (1:ℚ)/30 ≤ 1/20 ∧ (1:ℚ)/20 ≤ 1/15) ∧
    ((1/30 ≤ adapt_frame_rate 15 30 10 (1/20) ∧
      adapt_frame_rate 15 30 10 (1/20) ≤ 1/15) ∧
     ((10:ℚ) < 15 →
       1/20 ≤ adapt_frame_rate 15 30 10 (1/20) ∧
       adapt_frame_rate 15 30 10 (1/20) = min ((1:ℚ)/20 * (11/10)) (1/15))) := by
  have h1 : (0:ℚ) < 15 := by norm_num
  have h2 : (15:ℚ) ≤ 30 := by norm_num
  have h3 : (1:ℚ)/30 ≤ 1/20 := by norm_num
  have h4 : (1:ℚ)/20 ≤ 1/15 := by norm_num
  exact ⟨⟨h1, h2, h3, h4⟩, adapt_frame_rate_bounds 15 30 10 (1/20) h1 h2 h3 h4⟩

instance (probs : List ℚ) : IsTotal Nat (argsortRel probs) := by
  constructor
  intro i j
  unfold argsortRel
  rcases lt_trichotomy (probs.getD i 0) (probs.getD j 0) with h | h | h
  · exact Or.inl (Or.inl h)
  · rcases le_total i j with hij | hij
    · exact Or.inl (Or.inr ⟨h, hij⟩)
    · exact Or.inr (Or.inr ⟨h.symm, hij⟩)
  · exact Or.inr (Or.inl h)

instance (probs : List ℚ) : IsTrans Nat (argsortRel probs) := by
  constructor
  intro a b c hab hbc
  unfold argsortRel at *
  rcases hab with h1 | h1 <;> rcases hbc with h2 | h2
  · exact Or.inl (h1.trans h2)
  · exact Or.inl (lt_of_lt_of_eq h1 h2.1)
  · exact Or.inl (lt_of_eq_of_lt h1.1 h2)
  · exact Or.inr ⟨h1.1.trans h2.1, h1.2.trans h2.2⟩

theorem argsort_sorted (probs : List ℚ) :
    List.Sorted (argsortRel probs) (argsort probs) :=
  List.sorted_insertionSort _ _

theorem top_k_indices_sorted (probs : List ℚ) (k : Int) :
    List.Sorted (fun i j => argsortRel probs j i) (top_k_indices probs k) := by
  unfold top_k_indices
  refine List.pairwise_reverse.2 ?_
  have hs : List.Sorted (argsortRel probs) (pyTailSlice k (argsort probs)) := by
    unfold pyTailSlice
    split_ifs <;> exact List.Pairwise.sublist (List.drop_sublist _ _) (argsort_sorted probs)
  exact hs

theorem length_pyTailSlice_le (k : Int) (hk : 1 ≤ k) (xs : List α) :
    (pyTailSlice k xs).length ≤ k.toNat := by
  unfold pyTailSlice
  rw [if_pos (by omega), List.length_drop]
  omega

/-- C5 counterexample: on the uniform distribution [1/2, 1/2] with k = 2, the
code returns index 1 before index 0, so equal probabilities are ordered by
DESCENDING original index, not ascending as claimed; and for k = 0 the Python
slice is `probs[-0:] = probs[0:]`, the whole vector, so the length bound
`length ≤ k` also fails. -/
theorem predict_top_k_counterexample :
    top_k_indices [(1:ℚ)/2, 1/2] 2 = [1, 0] ∧
    predict_top_k ["a", "b"] [(1:ℚ)/2, 1/2] 2 = [("b", 1/2), ("a", 1/2)] ∧
    (predict_top_k ["a", "b"] [(1:ℚ)/2, 1/2] 0).length = 2 := by
  refine ⟨?_, ?_, ?_⟩ <;>
    simp [predict_top_k, top_k_indices, pyTailSlice, argsort, argsortRel,
      List.insertionSort, List.orderedInsert]

/-- C5 (amended): for every label table, probability vector and k ≥ 1,
`predict_top_k` returns at most k pairs, each pairing a selected index with
its label and probability, and the selected indices are sorted in descending
order of probability with equal probabilities ordered by DESCENDING original
index (for k = 0 the Python slice `[-0:]` selects the whole vector instead). -/
theorem predict_top_k_spec (labels : List String) (probs : List ℚ) (k : Int)
    (hk : 1 ≤ k) :
    (predict_top_k labels probs k).length ≤ k.toNat ∧
    predict_top_k labels probs k
      = (top_k_indices probs k).map (fun i => (labels.getD i "", probs.getD i 0)) ∧
    List.Sorted (fun i j => probs.getD j 0 < probs.getD i 0 ∨
        (probs.getD j 0 = probs.getD i 0 ∧ j ≤ i)) (top_k_indices probs k) := by
  refine ⟨?_, rfl, ?_⟩
  · unfold predict_top_k top_k_indices
    rw [List.length_map, List.length_reverse]
    exact length_pyTailSlice_le k hk _
  · have h := top_k_indices_sorted probs k
    unfold argsortRel at h
    exact h

/-- C5 witness: the amended statement instantiated on the uniform
two-element distribution with k = 2. -/
theorem predict_top_k_spec_witness :
    (1 ≤ (2:Int)) ∧
    ((predict_top_k ["a", "b"] [(1:ℚ)/2, 1/2] 2).length ≤ (2:Int).toNat ∧
     predict_top_k ["a", "b"] [(1:ℚ)/2, 1/2] 2
       = (top_k_indices [(1:ℚ)/2, 1/2] 2).map
           (fun i => ((["a", "b"] : List String).getD i "",
                      ([(1:ℚ)/2, 1/2] : List ℚ).getD i 0)) ∧
     List.Sorted (fun i j => ([(1:ℚ)/2, 1/2] : List ℚ).getD j 0
           < ([(1:ℚ)/2, 1/2] : List ℚ).getD i 0 ∨
         (([(1:ℚ)/2, 1/2] : List ℚ).getD j 0 = ([(1:ℚ)/2, 1/2] : List ℚ).getD i 0 ∧ j ≤ i))
       (top_k_indices [(1:ℚ)/2, 1/2] 2)) := by
  have hk : 1 ≤ (2:Int) := by norm_num
  exact ⟨hk, predict_top_k_spec ["a", "b"] [(1:ℚ)/2, 1/2] 2 hk⟩

/-! Structural facts about one `GestureSmoother.update` step. -/

theorem GestureSmoother.update_current (s : GestureSmoother) (p : String) (c t : ℚ) :
    ((s.update p c t).2).current_gesture = some p := by
  simp only [GestureSmoother.update]
  split_ifs with h1 h2 h3 h4
  · rfl
  · exact not_not.mp h1
  · exact not_not.mp h1
  · exact not_not.mp h1
  · exact not_not.mp h1

theorem GestureSmoother.update_new (s : GestureSmoother) (p : String) (c t : ℚ)
    (h : s.current_gesture ≠ some p) :
    s.update p c t
      = (none, { s with current_gesture := some p, gesture_start_time := t }) := by
  simp only [GestureSmoother.update]
  rw [if_pos h]

theorem GestureSmoother.update_same_start (s : GestureSmoother) (p : String) (c t : ℚ)
    (h : s.current_gesture = some p) :
    ((s.update p c t).2).gesture_start_time = s.gesture_start_time := by
  simp only [GestureSmoother.update]
  split_ifs with h1 h2 h3 h4
  · exact absurd h h1
  · rfl
  · rfl
  · rfl
  · rfl

theorem GestureSmoother.update_none_frame (s : GestureSmoother) (p : String) (c t : ℚ)
    (h : (s.update p c t).1 = none) :
    ((s.update p c t).2).last_output_time = s.last_output_time ∧
    ((s.update p c t).2).output_history = s.output_history := by
  simp only [GestureSmoother.update] at h ⊢
  split_ifs at h ⊢
  · exact ⟨rfl, rfl⟩
  · exact ⟨rfl, rfl⟩
  · exact ⟨rfl, rfl⟩
  · exact ⟨rfl, rfl⟩

theorem GestureSmoother.update_emit (s : GestureSmoother) (p : String) (c t : ℚ)
    (lab : String) (cc : ℚ) (h : (s.update p c t).1 = some (lab, cc)) :
    lab = p ∧ cc = c ∧
    s.current_gesture = some p ∧
    s.min_duration ≤ t - s.gesture_start_time ∧
    s.cooldown ≤ t - s.last_output_time ∧
    (s.output_history.getLast?).map (fun e => e.1) ≠ some p ∧
    (s.update p c t).2 = { s with
        last_output_time := t,
        output_history := dequeAppend 10 s.output_history (p, c, t) } := by
  simp only [GestureSmoother.update] at h ⊢
  split_ifs at h ⊢ with h1 h2 h3 h4
  simp only [Prod.mk.injEq, Option.some.injEq] at h
  exact ⟨h.1.symm, h.2.symm, not_not.mp h1, not_lt.mp h2, not_lt.mp h3, h4, rfl⟩

theorem stateAt_succ (md cd : ℚ) (l : List (String × ℚ × ℚ)) (i : Nat)
    (h : i < l.length) :
    stateAt md cd l (i + 1)
      = ((stateAt md cd l i).update (labelAt l i) (confAt l i) (timeAt l i)).2 := by
  unfold stateAt
  rw [List.take_succ, List.foldl_append]
  have hx : l[i]? = some l[i] := List.getElem?_eq_getElem h
  have hg : l.getD i ("", 0, 0) = l[i] := by
    rw [List.getD_eq_getElem?_getD, hx]
    rfl
  rw [hx]
  simp only [Option.toList_some, List.foldl_cons, List.foldl_nil, stepGS,
    labelAt, confAt, timeAt, hg]

theorem outAt_label (md cd : ℚ) (l : List (String × ℚ × ℚ)) (i : Nat)
    (lab : String) (cc : ℚ) (h : outAt md cd l i = some (lab, cc)) :
    lab = labelAt l i ∧ cc = confAt l i := by
  obtain ⟨h1, h2, _⟩ := GestureSmoother.update_emit (stateAt md cd l i)
    (labelAt l i) (confAt l i) (timeAt l i) lab cc h
  exact ⟨h1, h2⟩

/-- Episode invariant: after `i + 1` update calls the current gesture is the
label of call `i`, and the recorded episode start is the timestamp of some
call `j ≤ i` from which the label has been continuously this one. -/
theorem episode_invariant (md cd : ℚ) (l : List (String × ℚ × ℚ)) :
    ∀ i, i < l.length →
      ((stateAt md cd l (i+1)).current_gesture = some (labelAt l i) ∧
       ∃ j, j ≤ i ∧ (stateAt md cd l (i+1)).gesture_start_time = timeAt l j ∧
         ∀ m, j ≤ m → m ≤ i → labelAt l m = labelAt l i) := by
  intro i
  induction i with
  | zero =>
    intro h0
    rw [stateAt_succ md cd l 0 h0]
    refine ⟨GestureSmoother.update_current _ _ _ _, 0, le_refl 0, ?_, ?_⟩
    · rw [GestureSmoother.update_new _ _ _ _ (by simp [stateAt, GestureSmoother.init])]
    · intro m hm1 hm2
      have hm : m = 0 := Nat.le_antisymm hm2 (Nat.zero_le m)
      rw [hm]
  | succ i ih =>
    intro hsucc
    have hi : i < l.length := by omega
    obtain ⟨hcur, j, hj, hstart, hrun⟩ := ih hi
    rw [stateAt_succ md cd l (i+1) hsucc]
    by_cases heq : labelAt l (i+1) = labelAt l i
    · refine ⟨GestureSmoother.update_current _ _ _ _, j, by omega, ?_, ?_⟩
      · rw [GestureSmoother.update_same_start _ _ _ _ (by rw [hcur, heq])]
        exact hstart
      · intro m hm1 hm2
        rcases Nat.lt_or_ge m (i+1) with hm | hm
        · rw [heq]
          exact hrun m hm1 (by omega)
        · have hmi : m = i + 1 := by omega
          rw [hmi]
    · have hne : (stateAt md cd l (i+1)).current_gesture ≠ some (labelAt l (i+1)) := by
        rw [hcur]
        intro hcontra
        exact heq (Option.some.inj hcontra).symm
      rw [GestureSmoother.update_new _ _ _ _ hne]
      refine ⟨rfl, i+1, le_refl _, rfl, ?_⟩
      intro m hm1 hm2
      have hmi : m = i + 1 := by omega
      rw [hmi]

/-- Last-emission invariant: after `i` update calls either no call has
emitted and both the last output time and the emission history are still in
their initial state, or there is a latest emitting call `m < i` whose
timestamp is the recorded last output time and whose label is the one at the
back of the emission history. -/
theorem lastEmit_invariant (md cd : ℚ) (l : List (String × ℚ × ℚ)) :
    ∀ i, i ≤ l.length →
      (((stateAt md cd l i).last_output_time = 0 ∧
        (stateAt md cd l i).output_history = [] ∧
        ∀ m, m < i → outAt md cd l m = none) ∨
       (∃ m, m < i ∧ outAt md cd l m ≠ none ∧
         (stateAt md cd l i).last_output_time = timeAt l m ∧
         ((stateAt md cd l i).output_history.getLast?).map (fun e => e.1)
           = some (labelAt l m) ∧
         ∀ n, m < n → n < i → outAt md cd l n = none)) := by
  intro i
  induction i with
  | zero =>
    intro _
    left
    exact ⟨rfl, rfl, fun m hm => absurd hm (Nat.not_lt_zero m)⟩
  | succ i ih =>
    intro hsucc
    have hi : i < l.length := by omega
    have hIH := ih (by omega)
    rw [stateAt_succ md cd l i hi]
    cases hout : outAt md cd l i with
    | none =>
      have hpres := GestureSmoother.update_none_frame (stateAt md cd l i)
        (labelAt l i) (confAt l i) (timeAt l i) hout
      rcases hIH with ⟨hlot, hhist, hnone⟩ | ⟨m, hm, hme, hlot, hlast, hnone⟩
      · left
        refine ⟨hpres.1.trans hlot, hpres.2.trans hhist, ?_⟩
        intro n hn
        rcases Nat.lt_or_ge n i with h | h
        · exact hnone n h
        · have hni : n = i := by omega
          rw [hni]
          exact hout
      · right
        refine ⟨m, by omega, hme, hpres.1.trans hlot, ?_, ?_⟩
        · rw [hpres.2]
          exact hlast
        · intro n hn1 hn2
          rcases Nat.lt_or_ge n i with h | h
          · exact hnone n hn1 h
          · have hni : n = i := by omega
            rw [hni]
            exact hout
    | some e =>
      right
      obtain ⟨lab, cc⟩ := e
      obtain ⟨hlab, hcc, hcur, hdur, hcool, hhistne, hstate⟩ :=
        GestureSmoother.update_emit (stateAt md cd l i)
          (labelAt l i) (confAt l i) (timeAt l i) lab cc hout
      refine ⟨i, by omega, by rw [hout]; simp, ?_, ?_, ?_⟩
      · rw [hstate]
      · rw [hstate]
        show ((dequeAppend 10 (stateAt md cd l i).output_history
            (labelAt l i, confAt l i, timeAt l i)).getLast?).map (fun e => e.1)
          = some (labelAt l i)
        rw [getLast?_dequeAppend 10 (by omega)]
        rfl
      · intro n hn1 hn2
        exact absurd hn2 (by omega)

theorem GestureSmoother.update_config (s : GestureSmoother) (p : String) (c t : ℚ) :
    ((s.update p c t).2).min_duration = s.min_duration ∧
    ((s.update p c t).2).cooldown = s.cooldown := by
  simp only [GestureSmoother.update]
  split_ifs <;> exact ⟨rfl, rfl⟩

theorem foldl_stepGS_config (xs : List (String × ℚ × ℚ)) :
    ∀ s0 : GestureSmoother,
      (xs.foldl stepGS s0).min_duration = s0.min_duration ∧
      (xs.foldl stepGS s0).cooldown = s0.cooldown := by
  induction xs with
  | nil => exact fun s0 => ⟨rfl, rfl⟩
  | cons x rest ih =>
    intro s0
    rw [List.foldl_cons]
    obtain ⟨h1, h2⟩ := ih (stepGS s0 x)
    obtain ⟨g1, g2⟩ := GestureSmoother.update_config s0 x.1 x.2.1 x.2.2
    exact ⟨h1.trans g1, h2.trans g2⟩

theorem stateAt_config (md cd : ℚ) (l : List (String × ℚ × ℚ)) (i : Nat) :
    (stateAt md cd l i).min_duration = md ∧ (stateAt md cd l i).cooldown = cd :=
  foldl_stepGS_config (l.take i) (GestureSmoother.init md cd)

/-- C6: over any trace of `GestureSmoother.update` calls with non-decreasing
timestamps starting from a fresh smoother, (1) an emission of a label at call
`i` requires some call `j ≤ i` from which the label has been continuously the
input with the episode lasting at least `min_duration`; (2) two emissions of
the same label are separated by an intervening call carrying a different
label; and (3) any two emissions are at least `cooldown` apart in time. -/
theorem gesture_debouncer_guarantees (md cd : ℚ) (l : List (String × ℚ × ℚ))
    (mono : ∀ j, j < l.length → ∀ i, i ≤ j → timeAt l i ≤ timeAt l j) :
    (∀ i, i < l.length → ∀ lab c, outAt md cd l i = some (lab, c) →
       ∃ j, j ≤ i ∧ md ≤ timeAt l i - timeAt l j ∧
         ∀ m, j ≤ m → m ≤ i → labelAt l m = lab) ∧
    (∀ i j, i < j → j < l.length → ∀ labi ci labj cj,
       outAt md cd l i = some (labi, ci) → outAt md cd l j = some (labj, cj) →
       labi = labj →
       ∃ m, i < m ∧ m < j ∧ labelAt l m ≠ labi) ∧
    (∀ i j, i < j → j < l.length → ∀ labi ci labj cj,
       outAt md cd l i = some (labi, ci) → outAt md cd l j = some (labj, cj) →
       cd ≤ timeAt l j - timeAt l i) := by
  refine ⟨?_, ?_, ?_⟩
  · intro i hi lab c hout
    obtain ⟨hlab, hcc, hcur, hdur, hcool, hhistne, hstate⟩ :=
      GestureSmoother.update_emit (stateAt md cd l i)
        (labelAt l i) (confAt l i) (timeAt l i) lab c hout
    rcases Nat.eq_zero_or_pos i with h0 | hpos
    · subst h0
      exact absurd hcur (by simp [stateAt, GestureSmoother.init])
    · obtain ⟨hcur', j, hj, hstart, hrun⟩ := episode_invariant md cd l (i-1) (by omega)
      have hidx : i - 1 + 1 = i := by omega
      rw [hidx] at hcur' hstart
      have hlabels : labelAt l (i-1) = labelAt l i := by
        rw [hcur'] at hcur
        exact Option.some.inj hcur
      refine ⟨j, by omega, ?_, ?_⟩
      · rw [hstart, (stateAt_config md cd l i).1] at hdur
        exact hdur
      · intro m hm1 hm2
        rw [hlab]
        rcases Nat.lt_or_ge m i with hm | hm
        · rw [← hlabels]
          exact hrun m hm1 (by omega)
        · have hmi : m = i := by omega
          rw [hmi]
  · intro i j hij hjlen labi ci labj cj houti houtj heq
    obtain ⟨hlabj, _, _, _, _, hhistne, _⟩ :=
      GestureSmoother.update_emit (stateAt md cd l j)
        (labelAt l j) (confAt l j) (timeAt l j) labj cj houtj
    rcases lastEmit_invariant md cd l j (by omega) with
      ⟨_, _, hnone⟩ | ⟨m, hm, hme, _, hlast, hnone⟩
    · exact absurd houti (by rw [hnone i hij]; simp)
    · have him : i ≤ m := by
        by_contra hlt
        push_neg at hlt
        exact absurd houti (by rw [hnone i (by omega) hij]; simp)
      have hmj : labelAt l m ≠ labelAt l j := by
        intro hcontra
        rw [hcontra] at hlast
        exact hhistne hlast
      obtain ⟨hlabi, _⟩ := outAt_label md cd l i labi ci houti
      rcases Nat.eq_or_lt_of_le him with heqm | hlt
      · exfalso
        apply hmj
        rw [← heqm, ← hlabi, heq, hlabj]
      · refine ⟨m, hlt, hm, ?_⟩
        rw [heq, hlabj]
        exact hmj
  · intro i j hij hjlen labi ci labj cj houti houtj
    obtain ⟨_, _, _, _, hcool, _, _⟩ :=
      GestureSmoother.update_emit (stateAt md cd l j)
        (labelAt l j) (confAt l j) (timeAt l j) labj cj houtj
    rcases lastEmit_invariant md cd l j (by omega) with
      ⟨_, _, hnone⟩ | ⟨m, hm, hme, hlot, _, hnone⟩
    · exact absurd houti (by rw [hnone i hij]; simp)
    · have him : i ≤ m := by
        by_contra hlt
        push_neg at hlt
        exact absurd houti (by rw [hnone i (by omega) hij]; simp)
      have htm : timeAt l i ≤ timeAt l m := mono m (by omega) i him
      rw [hlot, (stateAt_config md cd l j).2] at hcool
      linarith

/-- C6 witness: the debouncer guarantees instantiated on the concrete
two-call trace of the label a at times 0 and 2/5 with the default timing
configuration. -/
theorem gesture_debouncer_guarantees_witness :
    (∀ j, j < c6Trace.length → ∀ i, i ≤ j → timeAt c6Trace i ≤ timeAt c6Trace j) ∧
    ((∀ i, i < c6Trace.length → ∀ lab c, outAt (3/10) (1/2) c6Trace i = some (lab, c) →
        ∃ j, j ≤ i ∧ (3:ℚ)/10 ≤ timeAt c6Trace i - timeAt c6Trace j ∧
          ∀ m, j ≤ m → m ≤ i → labelAt c6Trace m = lab) ∧
     (∀ i j, i < j → j < c6Trace.length → ∀ labi ci labj cj,
        outAt (3/10) (1/2) c6Trace i = some (labi, ci) →
        outAt (3/10) (1/2) c6Trace j = some (labj, cj) →
        labi = labj →
        ∃ m, i < m ∧ m < j ∧ labelAt c6Trace m ≠ labi) ∧
     (∀ i j, i < j → j < c6Trace.length → ∀ labi ci labj cj,
        outAt (3/10) (1/2) c6Trace i = some (labi, ci) →
        outAt (3/10) (1/2) c6Trace j = some (labj, cj) →
        (1:ℚ)/2 ≤ timeAt c6Trace j - timeAt c6Trace i)) := by
  have hmono : ∀ j, j < c6Trace.length → ∀ i, i ≤ j →
      timeAt c6Trace i ≤ timeAt c6Trace j := by
    intro j hj i hi
    have hj2 : j < 2 := by simpa [c6Trace] using hj
    interval_cases j <;> interval_cases i <;> simp [timeAt, c6Trace] <;> norm_num
  exact ⟨hmono, gesture_debouncer_guarantees (3/10) (1/2) c6Trace hmono⟩
